import Mathlib

/-!
Verification of the request-admission layer of `pkg/tiller/server.go`
(version gate, auth gate, unary/stream interceptors) and of the lint
command in `cmd/helm/lint.go` of the mumoshu/helm repository.

Shallow embedding: each Go function becomes a Lean function of the same
name.  gRPC contexts are modelled as the incoming metadata they carry;
the external version-compatibility predicate `version.IsCompatible` and
the server version `version.GetVersion()` are opaque parameters, exactly
as the spec treats them.  Side effects that do not influence control flow
(log statements, prometheus counters) are dropped; whether the auth gate
and the business handler were reached is recorded in the interceptor
result so that short-circuiting is provable.
-/

namespace Tiller

/-- Go `strings.Split(s, sep)` restricted to a single-character separator
`sep`, acting on the character list of the string.  For a non-empty
separator Go splits into the subsequences between consecutive occurrences
of the separator; splitting the empty string yields `[[]]`. -/
def splitChar (c : Char) : List Char → List (List Char)
  | [] => [[]]
  | x :: xs =>
      match splitChar c xs with
      | [] => [[]]
      | g :: gs => if x = c then [] :: g :: gs else (x :: g) :: gs

/-- Go `strings.Split` on strings, single-character separator. -/
def goSplit (c : Char) (s : String) : List String :=
  (splitChar c s.data).map String.mk

/-- gRPC incoming metadata: a map from header name to an ordered sequence
of values, modelled as an association list (first binding wins, as in a
Go map each key occurs at most once). -/
abbrev Metadata := List (String × List String)

/-- Go `md[key]` with its `ok` flag: `some values` when the key is bound. -/
def mdGet (md : Metadata) (k : String) : Option (List String) :=
  (md.find? (fun p => p.1 == k)).map (fun p => p.2)

/-- The part of a `context.Context` the gates inspect:
`metadata.FromIncomingContext` returns `(md, ok)`, modelled as
`Option Metadata`. -/
structure Context where
  metadata : Option Metadata
deriving DecidableEq

/-- `ServerOptsFactory` from `server.go`: the single admission-config
boolean. -/
structure ServerOptsFactory where
  AuthProxyEnabled : Bool
deriving DecidableEq

/-- The two gate errors.  The Go code builds them with `fmt.Errorf`; the
version mismatch error carries both version strings, the unauthorized
error is a fixed message. -/
inductive GateError where
  | versionMismatch (client server : String)
  | unauthorized
deriving DecidableEq

/-- `versionFromContext`: first value of the `x-helm-api-client` header,
or `""` when the metadata or the header is absent or empty. -/
def versionFromContext (ctx : Context) : String :=
  match ctx.metadata with
  | some md =>
      match mdGet md "x-helm-api-client" with
      | some (v0 :: _) => v0
      | _ => ""
  | none => ""

/-- `checkClientVersion`: fail with a version-mismatch error carrying both
version strings unless the compatibility predicate accepts the pair.
`compatible` stands for the external `version.IsCompatible` and
`serverVersion` for `version.GetVersion()`. -/
def checkClientVersion (compatible : String → String → Bool)
    (serverVersion : String) (ctx : Context) : Option GateError :=
  let clientVersion := versionFromContext ctx
  if compatible clientVersion serverVersion then none
  else some (GateError.versionMismatch clientVersion serverVersion)

/-- `splitMethod`: split the full method name on `/`; when that yields
exactly three fragments return the second and third, otherwise the
sentinel pair. -/
def splitMethod (fullMethod : String) : String × String :=
  match goSplit '/' fullMethod with
  | [_, a, b] => (a, b)
  | _ => ("unknown", "unknown")

/-- `authenticatedUserFromContext`: first value of `x-forwarded-user`
(default `""`) and the first value of `x-forwarded-groups` split on `|`
(default `[]`). -/
def authenticatedUserFromContext (ctx : Context) : String × List String :=
  match ctx.metadata with
  | some md =>
      let user : String :=
        match mdGet md "x-forwarded-user" with
        | some (v0 :: _) => v0
        | _ => ""
      let groups : List String :=
        match mdGet md "x-forwarded-groups" with
        | some (v0 :: _) => goSplit '|' v0
        | _ => []
      (user, groups)
  | none => ("", [])

/-- `checkAuthenticatedUser`: unauthorized exactly when the resolved user
is empty. -/
def checkAuthenticatedUser (ctx : Context) : Option GateError :=
  if (authenticatedUserFromContext ctx).1 = "" then some GateError.unauthorized
  else none

/-- `optionallyCheckAuthenticatedUser`: enforce only when
`AuthProxyEnabled` is set, otherwise succeed immediately. -/
def optionallyCheckAuthenticatedUser (f : ServerOptsFactory) (ctx : Context) :
    Option GateError :=
  if f.AuthProxyEnabled then checkAuthenticatedUser ctx else none

/-- Observable outcome of an interceptor: the error returned to the
caller (`none` = the handler's own result is returned verbatim), and
whether the auth gate respectively the instrumentation-wrapped business
handler were reached. -/
structure InterceptResult where
  err : Option GateError
  authGateEvaluated : Bool
  handlerInvoked : Bool
deriving DecidableEq

/-- The tail both interceptors share once the version check is passed (or
suppressed): run `optionallyCheckAuthenticatedUser`, return its error on
failure, otherwise invoke the instrumentation-wrapped handler. -/
def authThenHandler (f : ServerOptsFactory) (ctx : Context) : InterceptResult :=
  match optionallyCheckAuthenticatedUser f ctx with
  | some e => ⟨some e, true, false⟩
  | none => ⟨none, true, true⟩

/-- `newUnaryInterceptor`: on a version-check failure, return the error
unless the method component of `info.FullMethod` is `"GetVersion"`; then
auth gate, then handler. -/
def newUnaryInterceptor (f : ServerOptsFactory)
    (compatible : String → String → Bool) (serverVersion : String)
    (fullMethod : String) (ctx : Context) : InterceptResult :=
  match checkClientVersion compatible serverVersion ctx with
  | some e =>
      if (splitMethod fullMethod).2 ≠ "GetVersion" then ⟨some e, false, false⟩
      else authThenHandler f ctx
  | none => authThenHandler f ctx

/-- `newStreamInterceptor`: version check on the stream's context (no
method exemption appears in the code — `info` is not consulted), then
auth gate, then handler.  `fullMethod` is the stream's
`info.FullMethod`, kept as a parameter to state comparisons with the
unary interceptor. -/
def newStreamInterceptor (f : ServerOptsFactory)
    (compatible : String → String → Bool) (serverVersion : String)
    (fullMethod : String) (ctx : Context) : InterceptResult :=
  match checkClientVersion compatible serverVersion ctx with
  | some e => ⟨some e, false, false⟩
  | none => authThenHandler f ctx

/-- The claim C4 speaks of: the forwarded-user header is absent (or the
whole metadata is), bound to no values, or its first value is `""`. -/
def forwardedUserAbsentOrEmpty (ctx : Context) : Bool :=
  match ctx.metadata with
  | none => true
  | some md =>
      match mdGet md "x-forwarded-user" with
      | none => true
      | some [] => true
      | some (v0 :: _) => v0 == ""

end Tiller

namespace HelmLint

/-- Modelled from the spec: the severity levels of `pkg/lint/support`
(not under `src/`), ordered Unknown < Info < Warning < Error; the spec
fixes only this ordering (tolerance is "warning-level when a strict flag
is set, error-level otherwise"). -/
def UnknownSev : Nat := 0

/-- Modelled from the spec: info severity, see `UnknownSev`. -/
def InfoSev : Nat := 1

/-- Modelled from the spec: warning severity, see `UnknownSev`. -/
def WarningSev : Nat := 2

/-- Modelled from the spec: error severity, see `UnknownSev`. -/
def ErrorSev : Nat := 3

/-- `support.Linter` as `lint.All` returns it: accumulated messages and
the highest severity seen.  The linter returned alongside an error is the
zero value `⟨[], 0⟩`. -/
structure Linter where
  Messages : List String
  HighestSeverity : Nat
deriving DecidableEq

/-- The errors `lintChart` can return: the distinguished sentinel
`errLintNoChart` (compared by identity in `run`), or any other error
(temp-dir creation, open, expand, archive-name parsing) with its
message. -/
inductive LintError where
  | noChart
  | other (msg : String)
deriving DecidableEq

/-- Modelled from the spec: the filesystem and the lint engine
(`ioutil.TempDir`, `os.Open`, `chartutil.Expand`, `os.Stat`, `lint.All`
are external collaborators, not under `src/`), as oracles fixed for one
run.  `lintAll` absorbs the run-constant `vals`, `namespace` and
`strict` arguments of `lint.All`. -/
structure LintEnv where
  tempDir : Except String String
  openOk : String → Bool
  expandOk : String → Bool
  chartYamlExists : String → Bool
  lintAll : String → Linter

/-- Go `strings.HasSuffix`. -/
def hasSuffix (s suffix : String) : Bool :=
  suffix.data.isSuffixOf s.data

/-- Go `filepath.Base` for slash-separated paths: `"."` for the empty
path, otherwise strip trailing slashes and keep everything after the
last remaining slash; a path of only slashes gives `"/"`. -/
def filepathBase (path : String) : String :=
  if path = "" then "."
  else
    let stripped := (path.data.reverse.dropWhile (fun x => x = '/')).reverse
    if stripped = [] then "/"
    else String.mk ((stripped.reverse.takeWhile (fun x => x ≠ '/')).reverse)

/-- Go `strings.LastIndex(s, string(c))` for a single character, at
character granularity (coincides with the Go byte index on ASCII names):
the index of the last occurrence of `c`, or `-1`. -/
def lastIndexChar (c : Char) : List Char → Int
  | [] => -1
  | x :: xs =>
      let r := lastIndexChar c xs
      if r ≥ 0 then r + 1 else if x = c then 0 else -1

/-- The archive-handling prefix of `lintChart`: for a `.tgz` path, make a
temp dir, open and expand the archive, then derive the chart directory
from the base name cut at its last hyphen (`lastHyphenIndex <= 0` is an
error); for any other path the chart path is the path itself. -/
def resolveChartPath (env : LintEnv) (path : String) : Except LintError String :=
  if hasSuffix path ".tgz" then
    match env.tempDir with
    | Except.error e => Except.error (LintError.other e)
    | Except.ok tempDir =>
        if !env.openOk path then
          Except.error (LintError.other ("open failed: " ++ path))
        else if !env.expandOk path then
          Except.error (LintError.other ("expand failed: " ++ path))
        else
          let base := filepathBase path
          let lastHyphenIndex := lastIndexChar '-' base.data
          if lastHyphenIndex ≤ 0 then
            Except.error (LintError.other
              ("unable to parse chart archive " ++ base ++ ", missing hyphen"))
          else
            Except.ok (tempDir ++ "/" ++ String.mk (base.data.take lastHyphenIndex.toNat))
  else Except.ok path

/-- `lintChart`: resolve the chart path, guard on `Chart.yaml` being
present (else the sentinel `errLintNoChart`), then run the lint engine. -/
def lintChart (env : LintEnv) (path : String) : Except LintError Linter :=
  match resolveChartPath env path with
  | Except.error e => Except.error e
  | Except.ok chartPath =>
      if env.chartYamlExists chartPath then Except.ok (env.lintAll chartPath)
      else Except.error LintError.noChart

/-- `lowestTolerance` in `lintCmd.run`: `WarningSev` under `--strict`,
else `ErrorSev`. -/
def lowestTolerance (strict : Bool) : Nat :=
  if strict then WarningSev else ErrorSev

/-- One iteration of the path loop in `lintCmd.run`, acting on the
`(total, failures)` accumulator: an error counts as a failure only when
it is the sentinel `errLintNoChart` and never increments `total`; a
linted chart increments `total` and counts as a failure when its highest
severity meets or exceeds the tolerance. -/
def runStep (env : LintEnv) (strict : Bool) (acc : Nat × Nat) (path : String) :
    Nat × Nat :=
  match lintChart env path with
  | Except.error e => (acc.1, if e = LintError.noChart then acc.2 + 1 else acc.2)
  | Except.ok linter =>
      (acc.1 + 1,
       if linter.HighestSeverity ≥ lowestTolerance strict then acc.2 + 1 else acc.2)

/-- The `(total, failures)` counters after the path loop of
`lintCmd.run`. -/
def runCounts (env : LintEnv) (strict : Bool) (paths : List String) : Nat × Nat :=
  paths.foldl (runStep env strict) (0, 0)

/-- `lintCmd.run` after a successful `vals(...)` (values assembly is an
external collaborator, failing before any path is visited): loop over
the paths, then return an error exactly when `failures > 0`, else the
success message. -/
def run (env : LintEnv) (strict : Bool) (paths : List String) : Except String String :=
  let counts := runCounts env strict paths
  if counts.2 > 0 then
    Except.error (toString counts.1 ++ " chart(s) linted, "
      ++ toString counts.2 ++ " chart(s) failed")
  else Except.ok (toString counts.1 ++ " chart(s) linted, no failures")

/-- The per-path failure condition in the words of claim C7: the chart
was linted and its highest severity meets or exceeds the tolerance
(warning level under `--strict`, error level otherwise), or the path
lacks a `Chart.yaml` manifest. -/
def specPathFails (env : LintEnv) (strict : Bool) (path : String) : Bool :=
  match lintChart env path with
  | Except.error LintError.noChart => true
  | Except.error (LintError.other _) => false
  | Except.ok linter =>
      decide (linter.HighestSeverity ≥ (if strict then WarningSev else ErrorSev))

end HelmLint

namespace Tiller

/-- A context whose client declares version `"1.0.0"` via the
`x-helm-api-client` header. -/
def ctxOldClient : Context := ⟨some [("x-helm-api-client", ["1.0.0"])]⟩

/-- The context of spec example 8: forwarded user `"alice"`, forwarded
groups `"admins|devs"`. -/
def ctxAlice : Context :=
  ⟨some [("x-forwarded-user", ["alice"]), ("x-forwarded-groups", ["admins|devs"])]⟩

end Tiller

namespace HelmLint

/-- An environment where every filesystem step succeeds, no `Chart.yaml`
exists anywhere, and the lint engine reports nothing: used to exercise
the archive-name parsing error on a hyphen-free `.tgz` name. -/
def envPermissive : LintEnv :=
  ⟨Except.ok "/tmp/helm-lint", fun _ => true, fun _ => true, fun _ => false,
   fun _ => ⟨[], 0⟩⟩

end HelmLint

namespace Tiller

theorem splitChar_ne_nil (c : Char) (l : List Char) : splitChar c l ≠ [] := by
  cases l with
  | nil => simp [splitChar]
  | cons x xs =>
      simp only [splitChar]
      cases splitChar c xs with
      | nil => simp
      | cons g gs =>
          by_cases hx : x = c <;> simp [hx]

theorem splitChar_of_not_mem (c : Char) (l : List Char) (h : c ∉ l) :
    splitChar c l = [l] := by
  induction l with
  | nil => rfl
  | cons x xs ih =>
      have hx : x ≠ c := fun hxc => h (hxc ▸ List.mem_cons_self x xs)
      have hxs : c ∉ xs := fun hm => h (List.mem_cons_of_mem x hm)
      simp [splitChar, ih hxs, hx]

theorem splitChar_append (c : Char) (xs ys : List Char) (h : c ∉ xs) :
    splitChar c (xs ++ c :: ys) = xs :: splitChar c ys := by
  induction xs with
  | nil =>
      simp only [List.nil_append, splitChar]
      cases hsp : splitChar c ys with
      | nil => exact absurd hsp (splitChar_ne_nil c ys)
      | cons g gs => simp
  | cons x xs ih =>
      have hx : x ≠ c := fun hxc => h (hxc ▸ List.mem_cons_self x xs)
      have hxs : c ∉ xs := fun hm => h (List.mem_cons_of_mem x hm)
      simp only [List.cons_append, splitChar, List.append_eq, ih hxs, if_neg hx]

theorem splitChar_length (c : Char) (l : List Char) :
    (splitChar c l).length = l.count c + 1 := by
  induction l with
  | nil => rfl
  | cons x xs ih =>
      simp only [splitChar]
      cases hsp : splitChar c xs with
      | nil => exact absurd hsp (splitChar_ne_nil c xs)
      | cons g gs =>
          rw [hsp] at ih
          simp only [List.length_cons] at ih
          by_cases hx : x = c <;> simp [hx, List.count_cons] <;> omega

theorem forwardedUser_empty_of_absentOrEmpty (ctx : Context)
    (h : forwardedUserAbsentOrEmpty ctx = true) :
    (authenticatedUserFromContext ctx).1 = "" := by
  obtain ⟨meta⟩ := ctx
  cases meta with
  | none => rfl
  | some md =>
      simp only [forwardedUserAbsentOrEmpty] at h
      simp only [authenticatedUserFromContext]
      cases hget : mdGet md "x-forwarded-user" with
      | none => simp [hget]
      | some vs =>
          rw [hget] at h
          cases vs with
          | nil => simp [hget]
          | cons v0 rest =>
              simp only [beq_iff_eq] at h
              simp [hget, h]

end Tiller

namespace Tiller

theorem checkClientVersion_eq_some (compatible : String → String → Bool)
    (serverVersion : String) (ctx : Context) (e : GateError)
    (h : checkClientVersion compatible serverVersion ctx = some e) :
    compatible (versionFromContext ctx) serverVersion = false ∧
      e = GateError.versionMismatch (versionFromContext ctx) serverVersion := by
  unfold checkClientVersion at h
  by_cases hc : compatible (versionFromContext ctx) serverVersion = true
  · simp [hc] at h
  · simp only [Bool.not_eq_true] at hc
    simp [hc] at h
    exact ⟨hc, h.symm⟩

theorem checkClientVersion_eq_none (compatible : String → String → Bool)
    (serverVersion : String) (ctx : Context)
    (h : compatible (versionFromContext ctx) serverVersion = true) :
    checkClientVersion compatible serverVersion ctx = none := by
  simp [checkClientVersion, h]

theorem splitChar_cons_self (c : Char) (l : List Char) :
    splitChar c (c :: l) = [] :: splitChar c l := by
  simp only [splitChar]
  cases hsp : splitChar c l with
  | nil => exact absurd hsp (splitChar_ne_nil c l)
  | cons g gs => simp

theorem splitMethod_of_three (s g a b : String) (h : goSplit '/' s = [g, a, b]) :
    splitMethod s = (a, b) := by
  unfold splitMethod
  rw [h]

theorem splitMethod_of_not_three (s : String)
    (h : ∀ g a b, goSplit '/' s ≠ [g, a, b]) :
    splitMethod s = ("unknown", "unknown") := by
  unfold splitMethod
  cases hg : goSplit '/' s with
  | nil => rfl
  | cons a t =>
      cases t with
      | nil => rfl
      | cons b t2 =>
          cases t2 with
          | nil => rfl
          | cons d t3 =>
              cases t3 with
              | nil => exact absurd hg (h a b d)
              | cons e t4 => rfl

theorem goSplit_length (c : Char) (s : String) :
    (goSplit c s).length = s.data.count c + 1 := by
  simp [goSplit, splitChar_length]

end Tiller

namespace Tiller

/-- C1: for every unary call whose method component is not `"GetVersion"`,
if the compatibility predicate rejects the client/server version pair, the
unary interceptor returns the version-mismatch error carrying both version
strings, and neither the auth gate nor the business handler is reached. -/
theorem unary_version_mismatch_rejects_before_auth (f : ServerOptsFactory)
    (compatible : String → String → Bool) (serverVersion fullMethod : String)
    (ctx : Context)
    (hm : (splitMethod fullMethod).2 ≠ "GetVersion")
    (hv : compatible (versionFromContext ctx) serverVersion = false) :
    newUnaryInterceptor f compatible serverVersion fullMethod ctx =
      ⟨some (GateError.versionMismatch (versionFromContext ctx) serverVersion),
       false, false⟩ := by
  unfold newUnaryInterceptor checkClientVersion
  simp [hv, hm]

/-- Witness for C1 at a concrete non-exempt call with an incompatible
version. -/
theorem unary_version_mismatch_rejects_before_auth_witness :
    (splitMethod "/ReleaseService/InstallRelease").2 ≠ "GetVersion" ∧
    newUnaryInterceptor ⟨true⟩ (fun a b => a == b) "2.3.0"
        "/ReleaseService/InstallRelease" ctxOldClient =
      ⟨some (GateError.versionMismatch "1.0.0" "2.3.0"), false, false⟩ :=
  ⟨by decide,
   unary_version_mismatch_rejects_before_auth ⟨true⟩ (fun a b => a == b)
     "2.3.0" "/ReleaseService/InstallRelease" ctxOldClient (by decide) (by decide)⟩

/-- C2 counterexample: a streaming call to the exempt method
`"GetVersion"` with an incompatible client version is rejected by the
stream interceptor (no exemption appears in its code), while the same
call through the unary interceptor is admitted — so the streaming
admission sequence is not identical to the unary one. -/
theorem stream_exempt_method_rejected_cex :
    newStreamInterceptor ⟨false⟩ (fun a b => a == b) "2.3.0"
        "/ReleaseService/GetVersion" ctxOldClient =
      ⟨some (GateError.versionMismatch "1.0.0" "2.3.0"), false, false⟩ ∧
    newUnaryInterceptor ⟨false⟩ (fun a b => a == b) "2.3.0"
        "/ReleaseService/GetVersion" ctxOldClient =
      ⟨none, true, true⟩ := by
  decide

/-- C2 amended: for every streaming call the version gate applies with no
method exemption — an incompatible client version rejects the stream with
the version-mismatch error (auth gate and handler unreached) regardless of
the method name, and when the versions are compatible the stream proceeds
exactly as the unary call does. -/
theorem stream_no_version_exemption (f : ServerOptsFactory)
    (compatible : String → String → Bool) (serverVersion fullMethod : String)
    (ctx : Context) :
    (compatible (versionFromContext ctx) serverVersion = false →
      newStreamInterceptor f compatible serverVersion fullMethod ctx =
        ⟨some (GateError.versionMismatch (versionFromContext ctx) serverVersion),
         false, false⟩) ∧
    (compatible (versionFromContext ctx) serverVersion = true →
      newStreamInterceptor f compatible serverVersion fullMethod ctx =
        newUnaryInterceptor f compatible serverVersion fullMethod ctx) := by
  constructor
  · intro hv
    have hc : checkClientVersion compatible serverVersion ctx =
        some (GateError.versionMismatch (versionFromContext ctx) serverVersion) := by
      unfold checkClientVersion
      simp [hv]
    unfold newStreamInterceptor
    rw [hc]
  · intro hv
    have hc := checkClientVersion_eq_none compatible serverVersion ctx hv
    unfold newStreamInterceptor newUnaryInterceptor
    rw [hc]

/-- Witness for C2's amended theorem at a concrete incompatible streaming
call. -/
theorem stream_no_version_exemption_witness :
    ((fun a b => a == b) "1.0.0" "2.3.0") = false ∧
    newStreamInterceptor ⟨true⟩ (fun a b => a == b) "2.3.0"
        "/ReleaseService/InstallRelease" ctxOldClient =
      ⟨some (GateError.versionMismatch "1.0.0" "2.3.0"), false, false⟩ :=
  ⟨by decide,
   (stream_no_version_exemption ⟨true⟩ (fun a b => a == b) "2.3.0"
     "/ReleaseService/InstallRelease" ctxOldClient).1 (by decide)⟩

/-- C3: for a unary call whose method component is `"GetVersion"`, an
incompatible client version never rejects the call — the interceptor
proceeds to the shared auth-then-handler tail, whose decision is exactly
the auth gate's. -/
theorem unary_exempt_method_suppresses_version_failure (f : ServerOptsFactory)
    (compatible : String → String → Bool) (serverVersion fullMethod : String)
    (ctx : Context)
    (hm : (splitMethod fullMethod).2 = "GetVersion")
    (hv : compatible (versionFromContext ctx) serverVersion = false) :
    newUnaryInterceptor f compatible serverVersion fullMethod ctx =
      authThenHandler f ctx ∧
    (authThenHandler f ctx).err = optionallyCheckAuthenticatedUser f ctx ∧
    (authThenHandler f ctx).authGateEvaluated = true := by
  refine ⟨?_, ?_, ?_⟩
  · unfold newUnaryInterceptor checkClientVersion
    simp [hv, hm]
  · unfold authThenHandler
    cases optionallyCheckAuthenticatedUser f ctx <;> rfl
  · unfold authThenHandler
    cases optionallyCheckAuthenticatedUser f ctx <;> rfl

/-- Witness for C3 at a concrete exempt call with an incompatible
version. -/
theorem unary_exempt_method_suppresses_version_failure_witness :
    (splitMethod "/ReleaseService/GetVersion").2 = "GetVersion" ∧
    newUnaryInterceptor ⟨false⟩ (fun a b => a == b) "2.3.0"
        "/ReleaseService/GetVersion" ctxOldClient =
      authThenHandler ⟨false⟩ ctxOldClient :=
  ⟨by decide,
   (unary_exempt_method_suppresses_version_failure ⟨false⟩ (fun a b => a == b)
     "2.3.0" "/ReleaseService/GetVersion" ctxOldClient (by decide) (by decide)).1⟩

end Tiller

namespace Tiller

/-- C4: when identity enforcement is enabled and the forwarded-user
header is absent, valueless, or has `""` as its first value, the auth
gate rejects with the unauthorized error — and it does so uniformly: the
gate inspects no method name, so in the pipeline the rejection also
reaches calls to the version-exempt method (and any call whose version
check passes).  The hypothesis constrains only the user header, so the
conclusion holds whatever the forwarded-groups header resolves to. -/
theorem auth_enabled_empty_user_unauthorized (f : ServerOptsFactory)
    (ctx : Context)
    (hen : f.AuthProxyEnabled = true)
    (hu : forwardedUserAbsentOrEmpty ctx = true) :
    optionallyCheckAuthenticatedUser f ctx = some GateError.unauthorized ∧
    authThenHandler f ctx = ⟨some GateError.unauthorized, true, false⟩ ∧
    ∀ compatible serverVersion fullMethod,
      ((splitMethod fullMethod).2 = "GetVersion" ∨
        compatible (versionFromContext ctx) serverVersion = true) →
      (newUnaryInterceptor f compatible serverVersion fullMethod ctx).err =
        some GateError.unauthorized := by
  have huser := forwardedUser_empty_of_absentOrEmpty ctx hu
  have h1 : optionallyCheckAuthenticatedUser f ctx = some GateError.unauthorized := by
    unfold optionallyCheckAuthenticatedUser checkAuthenticatedUser
    simp [hen, huser]
  have h2 : authThenHandler f ctx = ⟨some GateError.unauthorized, true, false⟩ := by
    unfold authThenHandler
    rw [h1]
  refine ⟨h1, h2, ?_⟩
  intro compatible serverVersion fullMethod hcase
  unfold newUnaryInterceptor
  cases hcase with
  | inl hm =>
      cases hv : checkClientVersion compatible serverVersion ctx with
      | none => rw [h2]
      | some e => simp [hm, h2]
  | inr hv =>
      rw [checkClientVersion_eq_none compatible serverVersion ctx hv, h2]

/-- Witness for C4: enforcement enabled, metadata entirely absent. -/
theorem auth_enabled_empty_user_unauthorized_witness :
    forwardedUserAbsentOrEmpty ⟨none⟩ = true ∧
    optionallyCheckAuthenticatedUser ⟨true⟩ ⟨none⟩ = some GateError.unauthorized :=
  ⟨by decide, (auth_enabled_empty_user_unauthorized ⟨true⟩ ⟨none⟩ rfl (by decide)).1⟩

/-- C5: with `AuthProxyEnabled = false` the auth gate succeeds
immediately for every context — whatever metadata it carries and
whatever the method — so neither interceptor ever returns the
unauthorized error. -/
theorem auth_disabled_admits_all (compatible : String → String → Bool)
    (serverVersion fullMethod : String) (ctx : Context) :
    optionallyCheckAuthenticatedUser ⟨false⟩ ctx = none ∧
    (newUnaryInterceptor ⟨false⟩ compatible serverVersion fullMethod ctx).err ≠
      some GateError.unauthorized ∧
    (newStreamInterceptor ⟨false⟩ compatible serverVersion fullMethod ctx).err ≠
      some GateError.unauthorized := by
  have hath : authThenHandler ⟨false⟩ ctx = ⟨none, true, true⟩ := rfl
  refine ⟨rfl, ?_, ?_⟩
  · unfold newUnaryInterceptor
    cases hv : checkClientVersion compatible serverVersion ctx with
    | none => simp [hath]
    | some e =>
        obtain ⟨-, he⟩ :=
          checkClientVersion_eq_some compatible serverVersion ctx e hv
        by_cases hm : (splitMethod fullMethod).2 = "GetVersion"
        · simp [hm, hath]
        · simp [hm, hath, he]
  · unfold newStreamInterceptor
    cases hv : checkClientVersion compatible serverVersion ctx with
    | none => simp [hath]
    | some e =>
        obtain ⟨-, he⟩ :=
          checkClientVersion_eq_some compatible serverVersion ctx e hv
        simp [he]

/-- C6 counterexample: `"a/b/c"` has no leading slash (and `"//"` has no
non-empty components), so by the claim both should map to the sentinel
`("unknown", "unknown")`; the code instead returns the second and third
`/`-separated fragments. -/
theorem splitMethod_shape_cex :
    splitMethod "a/b/c" = ("b", "c") ∧
    splitMethod "//" = ("", "") ∧
    splitMethod "a/b/c" ≠ ("unknown", "unknown") := by
  decide

/-- C6 amended: `"/Svc/Method"` (components slash-free) splits into
`("Svc", "Method")`; more generally any string with exactly two `/`
characters yields its second and third fragments — even without a
leading slash and even when fragments are empty — and any string whose
`/`-count differs from two yields the sentinel pair rather than an
error. -/
theorem splitMethod_amended (s svc meth : String)
    (hsvc : ¬ '/' ∈ svc.data) (hmeth : ¬ '/' ∈ meth.data) :
    splitMethod ("/" ++ svc ++ "/" ++ meth) = (svc, meth) ∧
    (s.data.count '/' ≠ 2 → splitMethod s = ("unknown", "unknown")) ∧
    (∀ g a b, goSplit '/' s = [g, a, b] → splitMethod s = (a, b)) := by
  refine ⟨?_, ?_, fun g a b h => splitMethod_of_three s g a b h⟩
  · have hdata : ("/" ++ svc ++ "/" ++ meth).data =
        '/' :: (svc.data ++ '/' :: meth.data) := by
      simp [String.data_append]
    unfold splitMethod goSplit
    rw [hdata, splitChar_cons_self, splitChar_append '/' svc.data _ hsvc,
      splitChar_of_not_mem '/' meth.data hmeth]
    rfl
  · intro hcount
    refine splitMethod_of_not_three s (fun g a b hg => ?_)
    have := goSplit_length '/' s
    rw [hg] at this
    simp at this
    omega

/-- Witness for C6's amended theorem on concrete inputs: the canonical
shape and a slash-free string. -/
theorem splitMethod_amended_witness :
    splitMethod ("/" ++ "Svc" ++ "/" ++ "Method") = ("Svc", "Method") ∧
    splitMethod "noslash" = ("unknown", "unknown") :=
  ⟨(splitMethod_amended "noslash" "Svc" "Method" (by decide) (by decide)).1,
   (splitMethod_amended "noslash" "Svc" "Method" (by decide) (by decide)).2.1
     (by decide)⟩

/-- C8 (spec example 8): enforcement enabled, forwarded user `"alice"`,
forwarded groups `"admins|devs"` — the call is admitted and the identity
resolves to user `"alice"` with groups `admins` and `devs`, obtained by
splitting the single header value on `|`. -/
theorem auth_example_alice :
    authenticatedUserFromContext ctxAlice = ("alice", ["admins", "devs"]) ∧
    optionallyCheckAuthenticatedUser ⟨true⟩ ctxAlice = none ∧
    authThenHandler ⟨true⟩ ctxAlice = ⟨none, true, true⟩ ∧
    goSplit '|' "admins|devs" = ["admins", "devs"] := by
  decide

/-- C9: the gates and both interceptors are pure functions of the
immutable config and the call context, so re-evaluating any of them
against the identical, unmodified context yields the identical decision
— including the error payload — each time. -/
theorem gates_idempotent (f : ServerOptsFactory)
    (compatible : String → String → Bool) (serverVersion fullMethod : String)
    (ctx : Context) :
    checkClientVersion compatible serverVersion ctx =
      checkClientVersion compatible serverVersion ctx ∧
    optionallyCheckAuthenticatedUser f ctx =
      optionallyCheckAuthenticatedUser f ctx ∧
    newUnaryInterceptor f compatible serverVersion fullMethod ctx =
      newUnaryInterceptor f compatible serverVersion fullMethod ctx ∧
    newStreamInterceptor f compatible serverVersion fullMethod ctx =
      newStreamInterceptor f compatible serverVersion fullMethod ctx :=
  ⟨rfl, rfl, rfl, rfl⟩

end Tiller

namespace HelmLint

theorem runStep_snd (env : LintEnv) (strict : Bool) (acc : Nat × Nat)
    (path : String) :
    (runStep env strict acc path).2 =
      acc.2 + (if specPathFails env strict path then 1 else 0) := by
  unfold runStep specPathFails lowestTolerance
  cases h : lintChart env path with
  | error e => cases e <;> simp
  | ok linter =>
      by_cases hs :
          linter.HighestSeverity ≥ (if strict then WarningSev else ErrorSev) <;>
        simp [hs]

theorem runStep_other_error (env : LintEnv) (strict : Bool) (acc : Nat × Nat)
    (path msg : String)
    (h : lintChart env path = Except.error (LintError.other msg)) :
    runStep env strict acc path = acc := by
  unfold runStep
  rw [h]
  simp

theorem foldl_runStep_snd (env : LintEnv) (strict : Bool) (paths : List String) :
    ∀ acc : Nat × Nat, (paths.foldl (runStep env strict) acc).2 =
      acc.2 + paths.countP (specPathFails env strict) := by
  induction paths with
  | nil => intro acc; simp
  | cons p ps ih =>
      intro acc
      rw [List.foldl_cons, ih, runStep_snd, List.countP_cons]
      by_cases h : specPathFails env strict p <;> simp [h] <;> omega

theorem foldl_runStep_const (env : LintEnv) (strict : Bool) (paths : List String) :
    ∀ acc : Nat × Nat,
      (∀ p ∈ paths, ∃ msg, lintChart env p = Except.error (LintError.other msg)) →
      paths.foldl (runStep env strict) acc = acc := by
  induction paths with
  | nil => intro acc _; rfl
  | cons p ps ih =>
      intro acc h
      obtain ⟨msg, hmsg⟩ := h p (List.mem_cons_self p ps)
      rw [List.foldl_cons, runStep_other_error env strict acc p msg hmsg]
      exact ih acc (fun q hq => h q (List.mem_cons_of_mem p hq))

/-- C7: the lint command returns a non-ok outcome exactly when some path
fails, a path failing when its chart's highest lint severity meets or
exceeds the tolerance (warning level under `--strict`, error level
otherwise) or when it lacks a `Chart.yaml` manifest (the distinguished
no-chart failure); any other per-path error does not count. -/
theorem run_error_iff_path_fails (env : LintEnv) (strict : Bool)
    (paths : List String) :
    (run env strict paths).isOk = false ↔
      ∃ p ∈ paths, specPathFails env strict p = true := by
  have hcount : (runCounts env strict paths).2 =
      paths.countP (specPathFails env strict) := by
    unfold runCounts
    rw [foldl_runStep_snd]
    simp
  constructor
  · intro h
    unfold run at h
    by_cases hp : (runCounts env strict paths).2 > 0
    · rw [hcount] at hp
      exact List.countP_pos_iff.mp hp
    · simp [hp] at h
      cases h
  · rintro ⟨p, hp, hf⟩
    have hpos : 0 < (runCounts env strict paths).2 := by
      rw [hcount]
      exact List.countP_pos_iff.mpr ⟨p, hp, hf⟩
    unfold run
    simp only [hpos, if_pos]
    rfl

/-- C10: a path whose `lintChart` fails with any error other than the
no-chart sentinel (archive name without a hyphen, failed expansion, …)
increments neither the linted total nor the failure count, so a run over
only such paths succeeds reporting zero charts linted. -/
theorem run_skips_other_errors (env : LintEnv) (strict : Bool)
    (paths : List String)
    (h : ∀ p ∈ paths, ∃ msg, lintChart env p = Except.error (LintError.other msg)) :
    runCounts env strict paths = (0, 0) ∧
    run env strict paths = Except.ok "0 chart(s) linted, no failures" := by
  have hc : runCounts env strict paths = (0, 0) :=
    foldl_runStep_const env strict paths (0, 0) h
  refine ⟨hc, ?_⟩
  unfold run
  rw [hc]
  rfl

/-- Witness for C10: a `.tgz` path whose base name has no hyphen fails
archive-name parsing (not the no-chart sentinel), and a run over just
that path reports zero charts and no failures. -/
theorem run_skips_other_errors_witness :
    lintChart envPermissive "foo.tgz" =
      Except.error (LintError.other
        "unable to parse chart archive foo.tgz, missing hyphen") ∧
    run envPermissive false ["foo.tgz"] = Except.ok "0 chart(s) linted, no failures" := by
  refine ⟨rfl, (run_skips_other_errors envPermissive false ["foo.tgz"] ?_).2⟩
  intro p hp
  rw [List.mem_singleton] at hp
  subst hp
  exact ⟨"unable to parse chart archive foo.tgz, missing hyphen", rfl⟩

end HelmLint
